import Mathlib

set_option maxHeartbeats 1000000

/-!
Shallow embedding of the `checkers` Go library (files `container.go` and
`time.go`): a collection of gocheck-style assertion predicates over
dynamically typed values.  Go interface values are modelled by the
inductive type `GoVal`; Go reflection types by `GoType`; reflect kinds by
`GoKind`.  `reflect.DeepEqual` is modelled by `deepEqual`, and the runtime
comparability (hashability) of a dynamic value, which decides whether it
can be used as a map key without a runtime panic, by `comparableVal`.
Checkers that can panic (index out of range on the parameter slice, or
hashing a non-comparable map key) return `Option`: `none` models a panic.
-/

namespace Checkers

/-- Model of `reflect.Kind` (only the kinds the library can meet). -/
inductive GoKind where
  | intk
  | int64k
  | stringk
  | slicek
  | arrayk
  | mapk
  | structk
  | ifacek
deriving DecidableEq, Repr

/-- Model of `reflect.Type` for the value universe below.  `time.Duration`
has underlying kind `int64` and `time.Time` is a struct; slices, arrays and
maps carry their element/key types; `tiface` is the empty interface type
`interface {}`. -/
inductive GoType where
  | tint
  | tstring
  | tduration
  | ttime
  | tslice : GoType → GoType
  | tarray : Nat → GoType → GoType
  | tmap : GoType → GoType → GoType
  | tiface
deriving DecidableEq, Repr

/-- Model of a Go `interface{}` value (always carrying a concrete dynamic
type).  `vslice t xs` is a slice of declared element type `t` holding the
elements `xs`; likewise `varray`; `vmap k v entries` is a map with key type
`k`, value type `v` and the given (unordered, duplicate-key-free)
association list of entries.  `vduration`/`vtime` carry nanosecond counts /
instants as integers. -/
inductive GoVal where
  | vint : Int → GoVal
  | vstring : String → GoVal
  | vduration : Int → GoVal
  | vtime : Int → GoVal
  | vslice : GoType → List GoVal → GoVal
  | varray : GoType → List GoVal → GoVal
  | vmap : GoType → GoType → List (GoVal × GoVal) → GoVal

/-- Dynamic type of a value, as `reflect.TypeOf` reports it. -/
def typeOf : GoVal → GoType
  | .vint _ => .tint
  | .vstring _ => .tstring
  | .vduration _ => .tduration
  | .vtime _ => .ttime
  | .vslice t _ => .tslice t
  | .varray t xs => .tarray xs.length t
  | .vmap k v _ => .tmap k v

/-- Kind of a reflect type. -/
def GoType.kind : GoType → GoKind
  | .tint => .intk
  | .tstring => .stringk
  | .tduration => .int64k
  | .ttime => .structk
  | .tslice _ => .slicek
  | .tarray _ _ => .arrayk
  | .tmap _ _ => .mapk
  | .tiface => .ifacek

/-- Kind of a value, as `reflect.ValueOf(v).Kind()` reports it. -/
def kindOf (v : GoVal) : GoKind := (typeOf v).kind

/-- Rendering of a reflect type by `fmt` (the `%v` form). -/
def typeString : GoType → String
  | .tint => "int"
  | .tstring => "string"
  | .tduration => "time.Duration"
  | .ttime => "time.Time"
  | .tslice t => "[]" ++ typeString t
  | .tarray n t => "[" ++ toString n ++ "]" ++ typeString t
  | .tmap k v => "map[" ++ typeString k ++ "]" ++ typeString v
  | .tiface => "interface {}"

/-- Rendering of a reflect kind by `fmt` (the `%v` form). -/
def kindString : GoKind → String
  | .intk => "int"
  | .int64k => "int64"
  | .stringk => "string"
  | .slicek => "slice"
  | .arrayk => "array"
  | .mapk => "map"
  | .structk => "struct"
  | .ifacek => "interface"

/-- Rendering by the `%q` verb: the string wrapped in double quotes. -/
def quoteStr (s : String) : String := "\"" ++ s ++ "\""

/-- Type-based Go comparability: slice and map types are not comparable,
an array type is comparable exactly when its element type is (with no
zero-length exception: a `[0][]int` value is still unhashable), and an
interface type is comparable as a type (hashing one can still panic at
runtime depending on the dynamic contents). -/
def comparableType : GoType → Bool
  | .tint => true
  | .tstring => true
  | .tduration => true
  | .ttime => true
  | .tslice _ => false
  | .tmap _ _ => false
  | .tarray _ t => comparableType t
  | .tiface => true

mutual

/-- Whether the dynamic value is usable as a map key without the
`hash of unhashable type` panic.  Comparability in Go is decided by the
dynamic type (slices, maps, and arrays over them — even zero-length — are
unhashable); for arrays whose element type contains interfaces the runtime
additionally hashes each element's dynamic value, so all element values
must be comparable as well.  (For a non-interface comparable element type
the element condition is redundant on well-typed values.) -/
def comparableVal : GoVal → Bool
  | .vint _ => true
  | .vstring _ => true
  | .vduration _ => true
  | .vtime _ => true
  | .vslice _ _ => false
  | .varray t xs => comparableType t && comparableList xs
  | .vmap _ _ _ => false

/-- All values of the list are comparable. -/
def comparableList : List GoVal → Bool
  | [] => true
  | x :: xs => comparableVal x && comparableList xs

end

mutual

/-- Model of `reflect.DeepEqual` on two interface values: equal dynamic
types and deeply equal contents.  Map entries are matched by key (Go map
lookup) with deeply equal values, irrespective of entry order. -/
def deepEqual : GoVal → GoVal → Bool
  | .vint a, .vint b => decide (a = b)
  | .vstring a, .vstring b => decide (a = b)
  | .vduration a, .vduration b => decide (a = b)
  | .vtime a, .vtime b => decide (a = b)
  | .vslice t xs, .vslice u ys => decide (t = u) && deepEqualList xs ys
  | .varray t xs, .varray u ys => decide (t = u) && deepEqualList xs ys
  | .vmap k1 v1 m1, .vmap k2 v2 m2 =>
      decide (k1 = k2) && decide (v1 = v2) && decide (m1.length = m2.length) &&
        deepEqualEntries m1 m2
  | _, _ => false

/-- Elementwise deep equality of two lists (false on length mismatch). -/
def deepEqualList : List GoVal → List GoVal → Bool
  | [], [] => true
  | x :: xs, y :: ys => deepEqual x y && deepEqualList xs ys
  | _, _ => false

/-- Every entry of the first map has a matching entry in the second. -/
def deepEqualEntries : List (GoVal × GoVal) → List (GoVal × GoVal) → Bool
  | [], _ => true
  | (k, x) :: rest, m2 => deepEqualFind k x m2 && deepEqualEntries rest m2

/-- Some entry of the map has this key, with a deeply equal value.  (For a
well-formed map, whose keys are duplicate-free, this is exactly lookup
followed by deep comparison of the found value.) -/
def deepEqualFind : GoVal → GoVal → List (GoVal × GoVal) → Bool
  | _, _, [] => false
  | k, x, (k2, y) :: rest => (deepEqual k k2 && deepEqual x y) || deepEqualFind k x rest

end

/-- Elements of a slice or array value (`reflect.Value.Index` over its
length); empty for the other kinds. -/
def elems : GoVal → List GoVal
  | .vslice _ xs => xs
  | .varray _ xs => xs
  | _ => []

/-- Model of `reflect.Value.Len`. -/
def goLen : GoVal → Nat
  | .vslice _ xs => xs.length
  | .varray _ xs => xs.length
  | .vmap _ _ m => m.length
  | .vstring s => s.length
  | _ => 0

/-- The linear scan of `containsChecker.Check` over a slice or array:
return true on the first element deeply equal to `value`. -/
def containsScan (xs : List GoVal) (value : GoVal) : Bool :=
  match xs with
  | [] => false
  | x :: rest => if deepEqual x value then true else containsScan rest value

/-- Embedding of `containsChecker.Check` (container.go).  `params` is the
untyped argument slice; `none` models the index-out-of-range panic when
fewer than two arguments are supplied.  A slice/array container whose
element type differs from the dynamic type of the value fails silently;
a string container requires a string value (diagnostic naming the value's
own type otherwise) and then tests for a substring; any other container
kind yields the `Unsupported argument types` diagnostic. -/
def containsCheck : List GoVal → Option (Bool × String)
  | .vslice t xs :: value :: _ =>
      if t ≠ typeOf value then some (false, "")
      else some (containsScan xs value, "")
  | .varray t xs :: value :: _ =>
      if t ≠ typeOf value then some (false, "")
      else some (containsScan xs value, "")
  | .vstring s :: value :: _ =>
      if (typeOf value).kind ≠ GoKind.stringk then
        some (false, "value should have type: " ++ typeString (typeOf value))
      else
        match value with
        | .vstring sub => some (decide (sub.data <:+: s.data), "")
        | _ => some (false, "")
  | container :: value :: _ =>
      some (false, "Unsupported argument types: " ++ kindString (kindOf container) ++ " " ++
        typeString (typeOf value))
  | _ => none

/-- Embedding of `isInChecker.Check`: delegate to `containsCheck` with the
two arguments swapped. -/
def isInCheck : List GoVal → Option (Bool × String)
  | value :: container :: _ => containsCheck [container, value]
  | _ => none

/-- Embedding of `sliceEquals.Check`: both arguments must be of slice
kind (diagnostic otherwise); differing lengths fail silently; otherwise
the verdict is `reflect.DeepEqual` of the two values. -/
def sliceEqualsCheck : List GoVal → Option (Bool × String)
  | s1 :: s2 :: _ =>
      if kindOf s1 ≠ GoKind.slicek ∨ kindOf s2 ≠ GoKind.slicek then
        some (false, "Both arguments must be slices")
      else if goLen s1 ≠ goLen s2 then some (false, "")
      else some (deepEqual s1 s2, "")
  | _ => none

/-- Embedding of `mapEquals.Check`: both arguments must be of map kind
(diagnostic otherwise); differing lengths fail silently; otherwise the
verdict is `reflect.DeepEqual` of the two values. -/
def mapEqualsCheck : List GoVal → Option (Bool × String)
  | s1 :: s2 :: _ =>
      if kindOf s1 ≠ GoKind.mapk ∨ kindOf s2 ≠ GoKind.mapk then
        some (false, "Both arguments must be maps")
      else if goLen s1 ≠ goLen s2 then some (false, "")
      else some (deepEqual s1 s2, "")
  | _ => none

/-- Model of the Go map increment `m[k]++` on a `map[interface{}]int`
represented as an association list: bump the count of the entry whose key
is Go-equal to `k` (Go equality on the comparable keys occurring here
coincides with `deepEqual`), or append a fresh entry with count 1. -/
def goBump : List (GoVal × Nat) → GoVal → List (GoVal × Nat)
  | [], k => [(k, 1)]
  | (k2, c) :: rest, k =>
      if deepEqual k k2 then (k2, c + 1) :: rest else (k2, c) :: goBump rest k

/-- Model of Go map lookup `m[k]` on the count maps. -/
def goLk (k : GoVal) : List (GoVal × Nat) → Option Nat
  | [] => none
  | (k2, c) :: rest => if deepEqual k k2 then some c else goLk k rest

/-- Model of `reflect.DeepEqual` on two `map[interface{}]int` values:
equal length, and every entry of the first has a Go-equal key in the
second mapped to an equal count. -/
def goMEq (m1 m2 : List (GoVal × Nat)) : Bool :=
  decide (m1.length = m2.length) &&
    m1.all fun p =>
      match goLk p.1 m2 with
      | some c => decide (c = p.2)
      | none => false

/-- The counting loop of `sameContent.Check`: for each index, insert the
expected element into the first count map and the obtained element into
the second.  `none` models the `hash of unhashable type` panic raised when
an element's dynamic type is not comparable. -/
def fillCounts : List (GoVal × GoVal) → List (GoVal × Nat) → List (GoVal × Nat) →
    Option (List (GoVal × Nat) × List (GoVal × Nat))
  | [], mexp, mob => some (mexp, mob)
  | (e, o) :: rest, mexp, mob =>
      if comparableVal e then
        if comparableVal o then fillCounts rest (goBump mexp e) (goBump mob o)
        else none
      else none

/-- Embedding of `sameContent.Check` (container.go): arity check, slice
kind checks on both arguments, exact type equality of the two slice types,
silent failure on differing lengths, then element-to-count maps for both
slices compared with `reflect.DeepEqual`.  `none` models the runtime panic
on non-comparable (unhashable) elements. -/
def sameContentCheck : List GoVal → Option (Bool × String)
  | [obtained, expected] =>
      let tob := typeOf obtained
      if tob.kind ≠ GoKind.slicek then
        some (false, "SameContent expects the obtained value to be a slice, got " ++
          quoteStr (kindString tob.kind))
      else
        let texp := typeOf expected
        if texp.kind ≠ GoKind.slicek then
          some (false, "SameContent expects the expected value to be a slice, got " ++
            quoteStr (kindString texp.kind))
        else if texp ≠ tob then
          some (false, "SameContent expects two slices of the same type, expected: " ++
            quoteStr (typeString texp) ++ ", got: " ++ quoteStr (typeString tob))
        else if goLen obtained ≠ goLen expected then
          some (false, "")
        else
          match fillCounts (List.zip (elems expected) (elems obtained)) [] [] with
          | none => none
          | some (mexp, mob) => some (goMEq mob mexp, "")
  | _ => some (false, "SameContent expects two slice arguments")

/-- The `sort.Interface` capability used by `isSorted.Check`: a length and
an index-pairwise less-than predicate (`Swap` is never called). -/
structure SortContainer where
  len : Nat
  less : Nat → Nat → Bool

/-- The adjacent-pair loop of `isSorted.Check`, starting at index `i` with
`n` iterations left: fail on the first pair with `less (i+1) i`. -/
def checkPairs (less : Nat → Nat → Bool) : Nat → Nat → Bool × String
  | _, 0 => (true, "")
  | i, n + 1 =>
      if less (i + 1) i then
        (false, "value is not ordered at index " ++ toString (i + 1))
      else checkPairs less (i + 1) n

/-- Embedding of `isSorted.Check` on a container implementing
`sort.Interface`: iterate `i` from 0 while `i < Len() - 1`. -/
def isSortedCheck (c : SortContainer) : Bool × String :=
  checkPairs c.less 0 (c.len - 1)

/-- Embedding of `isSorted.Check` including the type assertion on the
argument: `none` models a value that does not implement `sort.Interface`. -/
def isSortedCheckRaw : Option SortContainer → Bool × String
  | none => (false, "value object must implement `sort.Interface`")
  | some c => isSortedCheck c

/-- The two bounds captured by a `timeBetweenChecker` (time.go); instants
are modelled as integers, `Before`/`After` as `<`/`>`. -/
structure TimeBetweenChecker where
  start : Int
  stop : Int

/-- Embedding of the `TimeBetween` factory: if `end.Before(start)`, swap
the two bounds. -/
def TimeBetween (start stop : Int) : TimeBetweenChecker :=
  if stop < start then ⟨stop, start⟩ else ⟨start, stop⟩

/-- Embedding of `timeBetweenChecker.Check`: the argument must be a
`time.Time`; fail with a diagnostic when it is before the start bound or
after the end bound, succeed otherwise.  (The `%#v` rendering of a
`time.Time` in the diagnostics is abstracted to the integer instant's
decimal form.) -/
def timeBetweenCheck (c : TimeBetweenChecker) : List GoVal → Option (Bool × String)
  | .vtime w :: _ =>
      if w < c.start then
        some (false, "obtained value " ++ toString w ++ " type must before start value of " ++
          toString c.start)
      else if c.stop < w then
        some (false, "obtained value " ++ toString w ++ " type must after end value of " ++
          toString c.stop)
      else some (true, "")
  | _ :: _ => some (false, "obtained value type must be time.Time")
  | [] => none

/-- Embedding of `durationLessThanChecker.Check`: both arguments must be
`time.Duration` values (diagnostic otherwise); the verdict is strict
`<` on their nanosecond counts.  A non-duration first argument returns its
diagnostic before `params[1]` is ever indexed, so only a duration-headed
singleton (or an empty list) panics on the second index. -/
def durationLessThanCheck : List GoVal → Option (Bool × String)
  | .vduration d1 :: b :: _ =>
      match b with
      | .vduration d2 => some (decide (d1 < d2), "")
      | _ => some (false, "expected value type must be time.Duration")
  | .vduration _ :: [] => none
  | _ :: _ => some (false, "obtained value type must be time.Duration")
  | [] => none

/-- Number of elements of the list deeply equal to `k` (used to relate the
count maps to multiset equality). -/
def cnt (k : GoVal) (xs : List GoVal) : Nat := xs.countP fun x => deepEqual k x

/-- Keys of a count map. -/
def goKeys (m : List (GoVal × Nat)) : List GoVal := m.map Prod.fst

/-- Deep equality coincides with structural equality whenever either side
is a comparable value (on comparable dynamic types, Go `==` and
`reflect.DeepEqual` and structural equality all agree); size-bounded form
for the strong induction. -/
theorem deepEqual_iff_eq_strong (n : Nat) :
    (∀ v w : GoVal, sizeOf v + sizeOf w ≤ n →
      (comparableVal v = true ∨ comparableVal w = true) → (deepEqual v w = true ↔ v = w))
    ∧ (∀ xs ys : List GoVal, sizeOf xs + sizeOf ys ≤ n →
      (comparableList xs = true ∨ comparableList ys = true) →
      (deepEqualList xs ys = true ↔ xs = ys)) := by
  induction n using Nat.strong_induction_on with
  | _ n ih =>
    constructor
    · intro v w hn hcmp
      cases v with
      | vint a => cases w <;> simp_all [deepEqual]
      | vstring a => cases w <;> simp_all [deepEqual]
      | vduration a => cases w <;> simp_all [deepEqual]
      | vtime a => cases w <;> simp_all [deepEqual]
      | vslice t xs => cases w <;> simp_all [deepEqual, comparableVal]
      | vmap k1 v1 m1 => cases w <;> simp_all [deepEqual, comparableVal]
      | varray t xs =>
        cases w with
        | varray u ys =>
          have hl : comparableList xs = true ∨ comparableList ys = true := by
            have h2 : (comparableType t = true ∧ comparableList xs = true) ∨
                (comparableType u = true ∧ comparableList ys = true) := by
              simpa [comparableVal, Bool.and_eq_true] using hcmp
            exact h2.imp And.right And.right
          have hsz : sizeOf xs + sizeOf ys < n := by
            simp only [GoVal.varray.sizeOf_spec] at hn
            omega
          have e := (ih _ hsz).2 xs ys le_rfl hl
          simp [deepEqual, e]
        | vint a => simp [deepEqual]
        | vstring a => simp [deepEqual]
        | vduration a => simp [deepEqual]
        | vtime a => simp [deepEqual]
        | vslice u ys => simp [deepEqual]
        | vmap k2 v2 m2 => simp [deepEqual]
    · intro xs ys hn hcmp
      cases xs with
      | nil =>
        cases ys with
        | nil => simp [deepEqualList]
        | cons y ys => simp [deepEqualList]
      | cons x xs =>
        cases ys with
        | nil => simp [deepEqualList]
        | cons y ys =>
          have hx : (comparableVal x = true ∧ comparableList xs = true) ∨
              (comparableVal y = true ∧ comparableList ys = true) := by
            simpa [comparableList, Bool.and_eq_true] using hcmp
          have h1 : comparableVal x = true ∨ comparableVal y = true :=
            hx.imp And.left And.left
          have h2 : comparableList xs = true ∨ comparableList ys = true :=
            hx.imp And.right And.right
          have hsz1 : sizeOf x + sizeOf y < n := by
            simp only [List.cons.sizeOf_spec] at hn
            omega
          have hsz2 : sizeOf xs + sizeOf ys < n := by
            simp only [List.cons.sizeOf_spec] at hn
            omega
          have e1 := (ih _ hsz1).1 x y le_rfl h1
          have e2 := (ih _ hsz2).2 xs ys le_rfl h2
          simp [deepEqualList, e1, e2]

/-- Deep equality is structural equality when either side is comparable. -/
theorem deepEqual_iff_eq (v w : GoVal)
    (h : comparableVal v = true ∨ comparableVal w = true) :
    deepEqual v w = true ↔ v = w :=
  (deepEqual_iff_eq_strong (sizeOf v + sizeOf w)).1 v w le_rfl h

/-- Deep equality is reflexive on comparable values. -/
theorem deepEqual_self (v : GoVal) (h : comparableVal v = true) : deepEqual v v = true :=
  (deepEqual_iff_eq v v (Or.inl h)).mpr rfl

/-- Deep equality refutes structural inequality when either side is
comparable. -/
theorem deepEqual_eq_false (v w : GoVal)
    (h : comparableVal v = true ∨ comparableVal w = true) (hne : v ≠ w) :
    deepEqual v w = false := by
  cases hde : deepEqual v w
  · rfl
  · exact absurd ((deepEqual_iff_eq v w h).mp hde) hne

/-- No value has the empty interface as its dynamic type: dynamic types
are always concrete. -/
theorem typeOf_ne_tiface (v : GoVal) : typeOf v ≠ GoType.tiface := by
  cases v <;> simp [typeOf]

/-- The containment scan succeeds exactly when some element is deeply
equal to the value. -/
theorem containsScan_true_iff (xs : List GoVal) (v : GoVal) :
    containsScan xs v = true ↔ ∃ x ∈ xs, deepEqual x v = true := by
  induction xs with
  | nil => simp [containsScan]
  | cons x rest ih =>
    by_cases h : deepEqual x v = true
    · simp [containsScan, h]
    · simp only [containsScan]
      rw [if_neg (by simpa using h)]
      simp only [ih, List.mem_cons]
      constructor
      · rintro ⟨y, hy, hde⟩
        exact ⟨y, Or.inr hy, hde⟩
      · rintro ⟨y, hy | hy, hde⟩
        · exact absurd (hy ▸ hde) h
        · exact ⟨y, hy, hde⟩

/-- The adjacent-pair loop returns a true verdict exactly when no pair in
its range violates the order. -/
theorem checkPairs_fst_iff (less : Nat → Nat → Bool) :
    ∀ (n i : Nat), (checkPairs less i n).1 = true ↔
      ∀ j, j < n → less (i + j + 1) (i + j) = false := by
  intro n
  induction n with
  | zero => intro i; simp [checkPairs]
  | succ n ih =>
    intro i
    simp only [checkPairs]
    cases hl : less (i + 1) i with
    | true =>
      simp only [if_pos rfl]
      constructor
      · intro h; cases h
      · intro h
        have h0 := h 0 (Nat.succ_pos n)
        simp only [Nat.add_zero] at h0
        rw [hl] at h0
        cases h0
    | false =>
      rw [if_neg (by simp [hl])]
      rw [ih (i + 1)]
      constructor
      · intro h j hj
        match j, hj with
        | 0, _ => simpa using hl
        | j' + 1, hj =>
          have e1 : i + (j' + 1) + 1 = (i + 1) + j' + 1 := by omega
          have e2 : i + (j' + 1) = (i + 1) + j' := by omega
          rw [e1, e2]
          exact h j' (by omega)
      · intro h j hj
        have e1 : (i + 1) + j + 1 = i + (j + 1) + 1 := by omega
        have e2 : (i + 1) + j = i + (j + 1) := by omega
        rw [e1, e2]
        exact h (j + 1) (by omega)

/-- The adjacent-pair loop stops on the first violating pair and reports
its larger index. -/
theorem checkPairs_first_violation (less : Nat → Nat → Bool) :
    ∀ (n i m : Nat), m < n → less (i + m + 1) (i + m) = true →
      (∀ j, j < m → less (i + j + 1) (i + j) = false) →
      checkPairs less i n =
        (false, "value is not ordered at index " ++ toString (i + m + 1)) := by
  intro n
  induction n with
  | zero => intro i m hm; omega
  | succ n ih =>
    intro i m hm hv hprev
    cases m with
    | zero =>
      simp only [Nat.add_zero] at hv
      simp [checkPairs, hv]
    | succ m' =>
      have h0 : less (i + 1) i = false := by simpa using hprev 0 (Nat.succ_pos m')
      simp only [checkPairs]
      rw [if_neg (by simp [h0])]
      have e1 : i + (m' + 1) + 1 = (i + 1) + m' + 1 := by omega
      have e2 : i + (m' + 1) = (i + 1) + m' := by omega
      rw [e1]
      apply ih (i + 1) m' (by omega) (by rw [← e1, ← e2]; exact hv)
      intro j hj
      have f1 : (i + 1) + j + 1 = i + (j + 1) + 1 := by omega
      have f2 : (i + 1) + j = i + (j + 1) := by omega
      rw [f1, f2]
      exact hprev (j + 1) (by omega)

/-- Bumping a key increments exactly that key's count. -/
theorem goLk_goBump_self (k : GoVal) (hk : comparableVal k = true) (m : List (GoVal × Nat)) :
    goLk k (goBump m k) = some ((goLk k m).getD 0 + 1) := by
  induction m with
  | nil => simp [goBump, goLk, deepEqual_self k hk]
  | cons p rest ih =>
    obtain ⟨k2, c⟩ := p
    by_cases hde : deepEqual k k2 = true
    · simp [goBump, goLk, hde]
    · have hde2 : deepEqual k k2 = false := by simpa using hde
      simp [goBump, goLk, hde2, ih]

/-- Bumping a different comparable key leaves a key's lookup unchanged. -/
theorem goLk_goBump_other (k j : GoVal) (hj : comparableVal j = true) (hne : k ≠ j)
    (m : List (GoVal × Nat)) : goLk k (goBump m j) = goLk k m := by
  have hkj : deepEqual k j = false := deepEqual_eq_false k j (Or.inr hj) hne
  induction m with
  | nil => simp [goBump, goLk, hkj]
  | cons p rest ih =>
    obtain ⟨k2, c⟩ := p
    by_cases hde : deepEqual j k2 = true
    · have he : j = k2 := (deepEqual_iff_eq j k2 (Or.inl hj)).mp hde
      subst he
      simp [goBump, goLk, hde, hkj]
    · have hde2 : deepEqual j k2 = false := by simpa using hde
      by_cases h2 : deepEqual k k2 = true
      · simp [goBump, goLk, hde2, h2]
      · have h22 : deepEqual k k2 = false := by simpa using h2
        simp [goBump, goLk, hde2, h22, ih]

/-- Lookup after folding the counting insertion over a list of comparable
values: the count of the key is added to whatever the accumulator held. -/
theorem goLk_foldl (k : GoVal) (hk : comparableVal k = true) :
    ∀ (xs : List GoVal) (m : List (GoVal × Nat)), (∀ v ∈ xs, comparableVal v = true) →
      goLk k (List.foldl goBump m xs) =
        match goLk k m with
        | some c => some (c + cnt k xs)
        | none => if cnt k xs = 0 then none else some (cnt k xs) := by
  intro xs
  induction xs with
  | nil =>
    intro m _
    simp only [List.foldl_nil, cnt, List.countP_nil]
    cases goLk k m <;> simp
  | cons x xs ih =>
    intro m hall
    have hx : comparableVal x = true := hall x (List.mem_cons_self x xs)
    have hxs : ∀ v ∈ xs, comparableVal v = true := fun v hv =>
      hall v (List.mem_cons_of_mem x hv)
    rw [List.foldl_cons, ih (goBump m x) hxs]
    by_cases hkx : k = x
    · subst hkx
      rw [goLk_goBump_self k hk m]
      have hcnt : cnt k (k :: xs) = cnt k xs + 1 := by
        simp [cnt, List.countP_cons, deepEqual_self k hk]
      rw [hcnt]
      cases hm : goLk k m <;> simp <;> omega
    · rw [goLk_goBump_other k x hx hkx m]
      have hcnt : cnt k (x :: xs) = cnt k xs := by
        simp [cnt, List.countP_cons, deepEqual_eq_false k x (Or.inl hk) hkx]
      rw [hcnt]

/-- Lookup in a count map built from scratch gives exactly the count. -/
theorem goLk_cm (k : GoVal) (xs : List GoVal) (hk : comparableVal k = true)
    (hxs : ∀ v ∈ xs, comparableVal v = true) :
    goLk k (List.foldl goBump [] xs) = if cnt k xs = 0 then none else some (cnt k xs) := by
  rw [goLk_foldl k hk xs [] hxs]
  simp [goLk]

/-- The key list of the empty count map. -/
theorem goKeys_nil : goKeys ([] : List (GoVal × Nat)) = [] := rfl

/-- The key list of a cons cell. -/
theorem goKeys_cons (p : GoVal × Nat) (rest : List (GoVal × Nat)) :
    goKeys (p :: rest) = p.1 :: goKeys rest := rfl

/-- Bumping a comparable key leaves the key list unchanged when the key is
present, and appends it when absent. -/
theorem goKeys_goBump (m : List (GoVal × Nat)) (x : GoVal) (hx : comparableVal x = true) :
    (x ∈ goKeys m → goKeys (goBump m x) = goKeys m)
    ∧ (x ∉ goKeys m → goKeys (goBump m x) = goKeys m ++ [x]) := by
  induction m with
  | nil =>
    constructor
    · intro h; simp [goKeys_nil] at h
    · intro _; simp [goBump, goKeys_cons, goKeys_nil]
  | cons p rest ih =>
    obtain ⟨k2, c⟩ := p
    by_cases hde : deepEqual x k2 = true
    · have he : x = k2 := (deepEqual_iff_eq x k2 (Or.inl hx)).mp hde
      constructor
      · intro _; simp [goBump, hde, goKeys_cons]
      · intro hmem
        exact absurd (by rw [goKeys_cons]; exact he ▸ List.mem_cons_self x (goKeys rest)) hmem
    · have hne : x ≠ k2 := fun he => hde (by rw [he]; exact deepEqual_self k2 (he ▸ hx))
      have hde2 : deepEqual x k2 = false := by simpa using hde
      constructor
      · intro hmem
        have hxr : x ∈ goKeys rest := by
          rcases List.mem_cons.mp (by rw [goKeys_cons] at hmem; exact hmem) with h | h
          · exact absurd h hne
          · exact h
        simp only [goBump, hde2, Bool.false_eq_true, if_false, goKeys_cons]
        rw [ih.1 hxr]
      · intro hmem
        have hxr : x ∉ goKeys rest := fun h =>
          hmem (by rw [goKeys_cons]; exact List.mem_cons_of_mem k2 h)
        simp only [goBump, hde2, Bool.false_eq_true, if_false, goKeys_cons]
        rw [ih.2 hxr]
        rfl

/-- Folding the counting insertion preserves key-list distinctness. -/
theorem goKeys_nodup_foldl :
    ∀ (xs : List GoVal) (m : List (GoVal × Nat)), (∀ v ∈ xs, comparableVal v = true) →
      (goKeys m).Nodup → (goKeys (List.foldl goBump m xs)).Nodup := by
  intro xs
  induction xs with
  | nil => intro m _ h; simpa using h
  | cons x xs ih =>
    intro m hall hnd
    have hx : comparableVal x = true := hall x (List.mem_cons_self x xs)
    rw [List.foldl_cons]
    apply ih (goBump m x) (fun v hv => hall v (List.mem_cons_of_mem x hv))
    by_cases hmem : x ∈ goKeys m
    · rw [(goKeys_goBump m x hx).1 hmem]; exact hnd
    · rw [(goKeys_goBump m x hx).2 hmem]
      simp [List.nodup_append, hnd, hmem]

/-- A key of the bumped map is a key of the old map or the bumped key. -/
theorem mem_goKeys_goBump (m : List (GoVal × Nat)) (x k : GoVal) :
    k ∈ goKeys (goBump m x) → k ∈ goKeys m ∨ k = x := by
  induction m with
  | nil =>
    intro h
    rw [show goBump [] x = [(x, 1)] from rfl, goKeys_cons] at h
    rcases List.mem_cons.mp h with h2 | h2
    · exact Or.inr h2
    · exact absurd h2 (by simp [goKeys_nil])
  | cons p rest ih =>
    obtain ⟨k2, c⟩ := p
    by_cases hde : deepEqual x k2 = true
    · intro h
      exact Or.inl (by simpa [goBump, hde, goKeys_cons] using h)
    · have hde2 : deepEqual x k2 = false := by simpa using hde
      intro h
      simp only [goBump, hde2, Bool.false_eq_true, if_false, goKeys_cons] at h
      rcases List.mem_cons.mp h with h2 | h2
      · exact Or.inl (by rw [goKeys_cons]; exact h2 ▸ List.mem_cons_self k2 (goKeys rest))
      · rcases ih h2 with h3 | h3
        · exact Or.inl (by rw [goKeys_cons]; exact List.mem_cons_of_mem k2 h3)
        · exact Or.inr h3

/-- A key of the fold-built count map is a key of the accumulator or one
of the folded values. -/
theorem mem_goKeys_foldl :
    ∀ (xs : List GoVal) (m : List (GoVal × Nat)) (k : GoVal),
      k ∈ goKeys (List.foldl goBump m xs) → k ∈ goKeys m ∨ k ∈ xs := by
  intro xs
  induction xs with
  | nil => intro m k h; exact Or.inl (by simpa using h)
  | cons x xs ih =>
    intro m k h
    rw [List.foldl_cons] at h
    rcases ih (goBump m x) k h with h2 | h2
    · rcases mem_goKeys_goBump m x k h2 with h3 | h3
      · exact Or.inl h3
      · exact Or.inr (h3 ▸ List.mem_cons_self x xs)
    · exact Or.inr (List.mem_cons_of_mem x h2)

/-- A comparable key is in the key list exactly when its lookup succeeds. -/
theorem mem_goKeys_iff_goLk (k : GoVal) (hk : comparableVal k = true)
    (m : List (GoVal × Nat)) : k ∈ goKeys m ↔ (goLk k m).isSome = true := by
  induction m with
  | nil => simp [goKeys_nil, goLk]
  | cons p rest ih =>
    obtain ⟨k2, c⟩ := p
    rw [goKeys_cons, List.mem_cons]
    by_cases hde : deepEqual k k2 = true
    · have he : k = k2 := (deepEqual_iff_eq k k2 (Or.inl hk)).mp hde
      subst he
      simp [goLk, hde]
    · have hne : k ≠ k2 := fun he => hde (by rw [he]; exact deepEqual_self k2 (he ▸ hk))
      have hde2 : deepEqual k k2 = false := by simpa using hde
      simp [goLk, hde2, hne, ih]

/-- On a map with distinct keys, membership of an entry determines the
lookup result. -/
theorem goLk_of_mem_nodup (k : GoVal) (c : Nat) (hk : comparableVal k = true) :
    ∀ m : List (GoVal × Nat), (goKeys m).Nodup → (k, c) ∈ m → goLk k m = some c := by
  intro m
  induction m with
  | nil => intro _ h; simp at h
  | cons p rest ih =>
    obtain ⟨k2, c2⟩ := p
    intro hnd hmem
    have hnd2 : k2 ∉ goKeys rest ∧ (goKeys rest).Nodup :=
      List.nodup_cons.mp (by rw [goKeys_cons] at hnd; exact hnd)
    rcases List.mem_cons.mp hmem with he | hr
    · have hk2 : k = k2 := congrArg Prod.fst he
      have hc2 : c = c2 := congrArg Prod.snd he
      subst hk2; subst hc2
      simp [goLk, deepEqual_self k hk]
    · have hkr : k ∈ goKeys rest := List.mem_map.mpr ⟨(k, c), hr, rfl⟩
      have hne : k ≠ k2 := fun he2 => hnd2.1 (he2 ▸ hkr)
      simp [goLk, deepEqual_eq_false k k2 (Or.inl hk) hne, ih hnd2.2 hr]

/-- A successful lookup of a comparable key exhibits an entry. -/
theorem mem_of_goLk (k : GoVal) (c : Nat) (hk : comparableVal k = true) :
    ∀ m : List (GoVal × Nat), goLk k m = some c → (k, c) ∈ m := by
  intro m
  induction m with
  | nil => intro h; simp [goLk] at h
  | cons p rest ih =>
    obtain ⟨k2, c2⟩ := p
    intro h
    by_cases hde : deepEqual k k2 = true
    · have he : k = k2 := (deepEqual_iff_eq k k2 (Or.inl hk)).mp hde
      simp only [goLk, hde, if_pos] at h
      have : c2 = c := by simpa using h
      subst he; subst this
      exact List.mem_cons_self _ _
    · have hde2 : deepEqual k k2 = false := by simpa using hde
      simp only [goLk, hde2, Bool.false_eq_true, if_false] at h
      exact List.mem_cons_of_mem _ (ih h)

/-- Unpacking of the deep map comparison into length and per-entry lookup
conditions. -/
theorem goMEq_eq_true_iff (m1 m2 : List (GoVal × Nat)) :
    goMEq m1 m2 = true ↔ m1.length = m2.length ∧ ∀ p ∈ m1, goLk p.1 m2 = some p.2 := by
  unfold goMEq
  rw [Bool.and_eq_true, decide_eq_true_eq, List.all_eq_true]
  refine and_congr Iff.rfl (forall_congr' fun p => imp_congr Iff.rfl ?_)
  cases h : goLk p.1 m2 <;> simp [h]

/-- The deep comparison of two count maps built from lists of comparable
values succeeds exactly when every value occurs equally often in both. -/
theorem goMEq_cm_iff (xs ys : List GoVal)
    (hx : ∀ v ∈ xs, comparableVal v = true) (hy : ∀ v ∈ ys, comparableVal v = true) :
    goMEq (List.foldl goBump [] xs) (List.foldl goBump [] ys) = true ↔
      ∀ k, cnt k xs = cnt k ys := by
  set m1 := List.foldl goBump [] xs with hm1
  set m2 := List.foldl goBump [] ys with hm2
  have hnd1 : (goKeys m1).Nodup := goKeys_nodup_foldl xs [] hx (by simp [goKeys_nil])
  have hnd2 : (goKeys m2).Nodup := goKeys_nodup_foldl ys [] hy (by simp [goKeys_nil])
  have hsub1 : ∀ k ∈ goKeys m1, k ∈ xs := by
    intro k hkm
    rcases mem_goKeys_foldl xs [] k (hm1 ▸ hkm) with h | h
    · exact absurd h (by simp [goKeys_nil])
    · exact h
  have hsub2 : ∀ k ∈ goKeys m2, k ∈ ys := by
    intro k hkm
    rcases mem_goKeys_foldl ys [] k (hm2 ▸ hkm) with h | h
    · exact absurd h (by simp [goKeys_nil])
    · exact h
  rw [goMEq_eq_true_iff]
  constructor
  · rintro ⟨hlen, hall⟩ k
    by_cases hkc : comparableVal k = true
    · by_cases h0 : cnt k xs = 0
      · by_contra hne0
        have hy0 : cnt k ys ≠ 0 := fun h => hne0 (by rw [h0, h])
        have hk2 : k ∈ goKeys m2 := by
          rw [mem_goKeys_iff_goLk k hkc, hm2, goLk_cm k ys hkc hy]
          simp [hy0]
        have hss : ∀ a ∈ goKeys m1, a ∈ goKeys m2 := by
          intro a ham
          have hac : comparableVal a = true := hx a (hsub1 a ham)
          obtain ⟨p, hp, hpa⟩ := List.mem_map.mp ham
          have hlk := hall p hp
          rw [hpa] at hlk
          rw [mem_goKeys_iff_goLk a hac, hlk]
          rfl
        have hperm : List.Perm (goKeys m1) (goKeys m2) :=
          (List.subperm_of_subset hnd1 hss).perm_of_length_le
            (le_of_eq (by simp [goKeys, hlen]))
        have hk1 : k ∈ goKeys m1 := hperm.mem_iff.mpr hk2
        rw [mem_goKeys_iff_goLk k hkc, hm1, goLk_cm k xs hkc hx] at hk1
        simp [h0] at hk1
      · have h1 : goLk k m1 = some (cnt k xs) := by
          rw [hm1, goLk_cm k xs hkc hx]
          simp [h0]
        have hmem : (k, cnt k xs) ∈ m1 := mem_of_goLk k (cnt k xs) hkc m1 h1
        have h2 := hall (k, cnt k xs) hmem
        rw [hm2, goLk_cm k ys hkc hy] at h2
        by_cases hy0 : cnt k ys = 0
        · simp [hy0] at h2
        · simp [hy0] at h2
          exact h2.symm
    · have hxz : cnt k xs = 0 := by
        rw [cnt, List.countP_eq_zero]
        intro x hxm
        have hxc : comparableVal x = true := hx x hxm
        have hne : k ≠ x := fun he => hkc (he ▸ hxc)
        simp [deepEqual_eq_false k x (Or.inr hxc) hne]
      have hyz : cnt k ys = 0 := by
        rw [cnt, List.countP_eq_zero]
        intro x hxm
        have hxc : comparableVal x = true := hy x hxm
        have hne : k ≠ x := fun he => hkc (he ▸ hxc)
        simp [deepEqual_eq_false k x (Or.inr hxc) hne]
      rw [hxz, hyz]
  · intro hcnt
    have hmemiff : ∀ a, a ∈ goKeys m1 ↔ a ∈ goKeys m2 := by
      intro a
      by_cases hac : comparableVal a = true
      · rw [mem_goKeys_iff_goLk a hac, mem_goKeys_iff_goLk a hac, hm1, hm2,
          goLk_cm a xs hac hx, goLk_cm a ys hac hy, hcnt a]
      · constructor
        · intro h; exact absurd (hx a (hsub1 a h)) hac
        · intro h; exact absurd (hy a (hsub2 a h)) hac
    have hkperm : List.Perm (goKeys m1) (goKeys m2) :=
      (List.perm_ext_iff_of_nodup hnd1 hnd2).mpr hmemiff
    constructor
    · simpa [goKeys] using hkperm.length_eq
    · intro p hp
      have hpk : p.1 ∈ goKeys m1 := List.mem_map_of_mem Prod.fst hp
      have hpc : comparableVal p.1 = true := hx _ (hsub1 _ hpk)
      have h1 : goLk p.1 m1 = some p.2 := goLk_of_mem_nodup p.1 p.2 hpc m1 hnd1 hp
      rw [hm1, goLk_cm p.1 xs hpc hx] at h1
      by_cases h0 : cnt p.1 xs = 0
      · simp [h0] at h1
      · simp [h0] at h1
        rw [hm2, goLk_cm p.1 ys hpc hy, ← hcnt p.1]
        rw [if_neg h0, h1]

/-- Over lists of comparable values, countwise equality is exactly
permutation (multiset) equality. -/
theorem cnt_eq_iff_perm (xs ys : List GoVal)
    (hx : ∀ v ∈ xs, comparableVal v = true) (hy : ∀ v ∈ ys, comparableVal v = true) :
    (∀ k, cnt k xs = cnt k ys) ↔ xs.Perm ys := by
  constructor
  · intro h
    classical
    rw [List.perm_iff_count]
    intro a
    by_cases hac : comparableVal a = true
    · have e : ∀ zs : List GoVal, (∀ v ∈ zs, comparableVal v = true) →
          List.count a zs = cnt a zs := by
        intro zs hzs
        induction zs with
        | nil => simp [cnt]
        | cons z zs ih =>
          have hz : comparableVal z = true := hzs z (List.mem_cons_self z zs)
          have hzs2 : ∀ v ∈ zs, comparableVal v = true := fun v hv =>
            hzs v (List.mem_cons_of_mem z hv)
          rw [List.count_cons, cnt, List.countP_cons]
          rw [show (List.countP (fun x => deepEqual a x) zs) = cnt a zs from rfl, ih hzs2]
          by_cases hza : z = a
          · subst hza
            simp [deepEqual_self z (hzs z (List.mem_cons_self z zs))]
          · have : deepEqual a z = false :=
              deepEqual_eq_false a z (Or.inr hz) (fun he => hza he.symm)
            simp [this, hza]
      rw [e xs hx, e ys hy, h a]
    · have hxz : List.count a xs = 0 :=
        List.count_eq_zero.mpr (fun hmem => hac (hx a hmem))
      have hyz : List.count a ys = 0 :=
        List.count_eq_zero.mpr (fun hmem => hac (hy a hmem))
      rw [hxz, hyz]
  · intro hperm k
    rw [cnt, cnt]
    exact hperm.countP_eq _

/-- The counting loop succeeds on comparable elements and builds exactly
the two folded count maps. -/
theorem fillCounts_eq :
    ∀ (es os : List GoVal) (me mo : List (GoVal × Nat)), es.length = os.length →
      (∀ v ∈ es, comparableVal v = true) → (∀ v ∈ os, comparableVal v = true) →
      fillCounts (List.zip es os) me mo
        = some (List.foldl goBump me es, List.foldl goBump mo os) := by
  intro es
  induction es with
  | nil =>
    intro os me mo hlen _ _
    cases os with
    | nil => simp [fillCounts]
    | cons o os => simp at hlen
  | cons e es ih =>
    intro os me mo hlen he ho
    cases os with
    | nil => simp at hlen
    | cons o os =>
      rw [List.zip_cons_cons]
      rw [show fillCounts ((e, o) :: List.zip es os) me mo
          = if comparableVal e then
              (if comparableVal o then fillCounts (List.zip es os) (goBump me e) (goBump mo o)
               else none)
            else none from rfl]
      rw [if_pos (he e (List.mem_cons_self e es)), if_pos (ho o (List.mem_cons_self o os))]
      rw [ih os (goBump me e) (goBump mo o) (by simpa using hlen)
        (fun v hv => he v (List.mem_cons_of_mem e hv))
        (fun v hv => ho v (List.mem_cons_of_mem o hv))]
      simp

/-- Reduction of the same-content check on two same-typed slices: the
arity, kind and type validations pass, leaving the silent length check and
the count-map comparison (or the modelled panic). -/
theorem sameContentCheck_slice_red (t : GoType) (xs ys : List GoVal) :
    sameContentCheck [GoVal.vslice t xs, GoVal.vslice t ys]
      = if xs.length ≠ ys.length then some (false, "")
        else
          match fillCounts (List.zip ys xs) [] [] with
          | none => none
          | some (mexp, mob) => some (goMEq mob mexp, "") := by
  simp only [sameContentCheck, typeOf, GoType.kind, elems, goLen]
  rw [if_neg (by simp), if_neg (by simp), if_neg (by simp)]

/-- C1 (amended): on two slices of the same slice type whose elements all
have comparable (map-key-usable) dynamic types, `SameContent.Check`
returns a true verdict exactly when the two element multisets agree, and
the silent false verdict exactly when they do not; differing lengths
always give the silent false verdict.  (With a non-comparable element the
check panics instead of returning, see the counterexample.) -/
theorem sameContent_check_spec (t : GoType) (xs ys : List GoVal) :
    ((∀ v ∈ xs, comparableVal v = true) → (∀ v ∈ ys, comparableVal v = true) →
      (sameContentCheck [GoVal.vslice t xs, GoVal.vslice t ys] = some (true, "") ↔
        (xs : Multiset GoVal) = (ys : Multiset GoVal))
      ∧ (sameContentCheck [GoVal.vslice t xs, GoVal.vslice t ys] = some (false, "") ↔
        ¬ (xs : Multiset GoVal) = (ys : Multiset GoVal)))
    ∧ (xs.length ≠ ys.length →
        sameContentCheck [GoVal.vslice t xs, GoVal.vslice t ys] = some (false, "")) := by
  constructor
  · intro hx hy
    by_cases hlen : xs.length = ys.length
    · have hfc := fillCounts_eq ys xs [] [] hlen.symm hy hx
      have hred : sameContentCheck [GoVal.vslice t xs, GoVal.vslice t ys]
          = some (goMEq (List.foldl goBump [] xs) (List.foldl goBump [] ys), "") := by
        rw [sameContentCheck_slice_red, if_neg (by simp [hlen]), hfc]
      have hiff : goMEq (List.foldl goBump [] xs) (List.foldl goBump [] ys) = true ↔
          (xs : Multiset GoVal) = (ys : Multiset GoVal) := by
        rw [goMEq_cm_iff xs ys hx hy, cnt_eq_iff_perm xs ys hx hy]
        exact Multiset.coe_eq_coe.symm
      rw [hred]
      cases hb : goMEq (List.foldl goBump [] xs) (List.foldl goBump [] ys)
      · rw [hb] at hiff
        simp only [Bool.false_eq_true, false_iff] at hiff
        constructor
        · simp [hiff]
        · simp [hiff]
      · rw [hb] at hiff
        have heq : (xs : Multiset GoVal) = (ys : Multiset GoVal) := hiff.mp rfl
        constructor
        · simp [heq]
        · simp [heq]
    · have hne : ¬ (xs : Multiset GoVal) = (ys : Multiset GoVal) := by
        intro h
        exact hlen (by simpa using congrArg Multiset.card h)
      have hred : sameContentCheck [GoVal.vslice t xs, GoVal.vslice t ys]
          = some (false, "") := by
        rw [sameContentCheck_slice_red, if_pos hlen]
      rw [hred]
      constructor <;> simp [hne]
  · intro hlen
    rw [sameContentCheck_slice_red, if_pos hlen]

/-- Counterexample to C1 as stated: two identical one-element slices of
type `[][]int` (so of the same slice type and equal length) have equal
element-to-count mappings, yet `SameContent.Check` panics (hash of
unhashable type) instead of returning a true verdict. -/
theorem sameContent_check_cex :
    sameContentCheck
        [GoVal.vslice (GoType.tslice GoType.tint) [GoVal.vslice GoType.tint []],
         GoVal.vslice (GoType.tslice GoType.tint) [GoVal.vslice GoType.tint []]] = none
    ∧ ([GoVal.vslice GoType.tint []] : Multiset GoVal)
        = ([GoVal.vslice GoType.tint []] : Multiset GoVal) :=
  ⟨by decide, rfl⟩

/-- Witness for C1 (amended): `[1,2]` and `[2,1]` as int slices are
multiset-equal, and the check confirms it. -/
theorem sameContent_check_spec_witness :
    sameContentCheck
        [GoVal.vslice GoType.tint [GoVal.vint 1, GoVal.vint 2],
         GoVal.vslice GoType.tint [GoVal.vint 2, GoVal.vint 1]] = some (true, "") :=
  (((sameContent_check_spec GoType.tint [GoVal.vint 1, GoVal.vint 2]
      [GoVal.vint 2, GoVal.vint 1]).1 (by decide) (by decide)).1).mpr
    (Multiset.coe_eq_coe.mpr (List.Perm.swap (GoVal.vint 2) (GoVal.vint 1) []))

/-- The containment check always returns on two arguments. -/
theorem containsCheck_isSome (c v : GoVal) : (containsCheck [c, v]).isSome = true := by
  cases c <;> cases v <;>
    simp [containsCheck, typeOf, GoType.kind, apply_ite Option.isSome]

/-- The slice-equality check always returns on two arguments. -/
theorem sliceEqualsCheck_isSome (a b : GoVal) : (sliceEqualsCheck [a, b]).isSome = true := by
  simp only [sliceEqualsCheck]
  split
  · rfl
  · split <;> rfl

/-- The map-equality check always returns on two arguments. -/
theorem mapEqualsCheck_isSome (a b : GoVal) : (mapEqualsCheck [a, b]).isSome = true := by
  simp only [mapEqualsCheck]
  split
  · rfl
  · split <;> rfl

/-- The duration comparison always returns on two arguments. -/
theorem durationLessThanCheck_isSome (a b : GoVal) :
    (durationLessThanCheck [a, b]).isSome = true := by
  cases a <;> cases b <;> rfl

/-- A non-duration obtained value draws the duration type diagnostic. -/
theorem durationLessThanCheck_obtained_diag (a b : GoVal)
    (h : ∀ d : Int, a ≠ GoVal.vduration d) :
    durationLessThanCheck [a, b]
      = some (false, "obtained value type must be time.Duration") := by
  cases a with
  | vduration d => exact absurd rfl (h d)
  | _ => rfl

/-- The time-range check always returns on one argument. -/
theorem timeBetweenCheck_isSome (c : TimeBetweenChecker) (w : GoVal) :
    (timeBetweenCheck c [w]).isSome = true := by
  cases w <;> simp [timeBetweenCheck, apply_ite Option.isSome]

/-- A zero-length array of non-comparable element type is itself not
usable as a map key: Go array comparability is type-based, with no
zero-length exception. -/
theorem comparableVal_zero_len_array :
    comparableVal (GoVal.varray (GoType.tslice GoType.tint) []) = false := by decide

/-- A container of unsupported kind draws the `Unsupported argument
types` diagnostic from the containment check. -/
theorem containsCheck_unsupported_diag (a b : GoVal) (h1 : kindOf a ≠ GoKind.slicek)
    (h2 : kindOf a ≠ GoKind.arrayk) (h3 : kindOf a ≠ GoKind.stringk) :
    containsCheck [a, b] = some (false, "Unsupported argument types: "
      ++ kindString (kindOf a) ++ " " ++ typeString (typeOf b)) := by
  cases a with
  | vslice t xs => exact absurd rfl h1
  | varray t xs => exact absurd rfl h2
  | vstring s => exact absurd rfl h3
  | _ => rfl

/-- A non-slice kind in either position draws the slice-equality kind
diagnostic. -/
theorem sliceEqualsCheck_kind_diag (a b : GoVal)
    (h : kindOf a ≠ GoKind.slicek ∨ kindOf b ≠ GoKind.slicek) :
    sliceEqualsCheck [a, b] = some (false, "Both arguments must be slices") := by
  simp only [sliceEqualsCheck]
  rw [if_pos h]

/-- A non-map kind in either position draws the map-equality kind
diagnostic. -/
theorem mapEqualsCheck_kind_diag (a b : GoVal)
    (h : kindOf a ≠ GoKind.mapk ∨ kindOf b ≠ GoKind.mapk) :
    mapEqualsCheck [a, b] = some (false, "Both arguments must be maps") := by
  simp only [mapEqualsCheck]
  rw [if_pos h]

/-- A non-duration expected value draws the duration type diagnostic. -/
theorem durationLessThanCheck_expected_diag (d1 : Int) (b : GoVal)
    (h : ∀ d : Int, b ≠ GoVal.vduration d) :
    durationLessThanCheck [GoVal.vduration d1, b]
      = some (false, "expected value type must be time.Duration") := by
  cases b with
  | vduration d => exact absurd rfl (h d)
  | _ => rfl

/-- A non-time argument draws the time type diagnostic. -/
theorem timeBetweenCheck_type_diag (c : TimeBetweenChecker) (w : GoVal)
    (h : ∀ i : Int, w ≠ GoVal.vtime i) :
    timeBetweenCheck c [w] = some (false, "obtained value type must be time.Time") := by
  cases w with
  | vtime i => exact absurd rfl (h i)
  | _ => rfl

/-- A non-slice obtained value draws the same-content kind diagnostic. -/
theorem sameContentCheck_obtained_diag (a b : GoVal) (h : kindOf a ≠ GoKind.slicek) :
    sameContentCheck [a, b] = some (false,
      "SameContent expects the obtained value to be a slice, got "
        ++ quoteStr (kindString (kindOf a))) := by
  simp only [sameContentCheck]
  rw [if_pos (show (typeOf a).kind ≠ GoKind.slicek from h)]
  rfl

/-- A non-slice expected value draws the same-content kind diagnostic. -/
theorem sameContentCheck_expected_diag (a b : GoVal) (ha : kindOf a = GoKind.slicek)
    (hb : kindOf b ≠ GoKind.slicek) :
    sameContentCheck [a, b] = some (false,
      "SameContent expects the expected value to be a slice, got "
        ++ quoteStr (kindString (kindOf b))) := by
  simp only [sameContentCheck]
  rw [if_neg (by simp [show (typeOf a).kind = GoKind.slicek from ha]),
    if_pos (show (typeOf b).kind ≠ GoKind.slicek from hb)]
  rfl

/-- Two slices of different slice types draw the same-content type
diagnostic, citing both types. -/
theorem sameContentCheck_type_diag (a b : GoVal) (ha : kindOf a = GoKind.slicek)
    (hb : kindOf b = GoKind.slicek) (hne : typeOf b ≠ typeOf a) :
    sameContentCheck [a, b] = some (false,
      "SameContent expects two slices of the same type, expected: "
        ++ quoteStr (typeString (typeOf b)) ++ ", got: "
        ++ quoteStr (typeString (typeOf a))) := by
  simp only [sameContentCheck]
  rw [if_neg (by simp [show (typeOf a).kind = GoKind.slicek from ha]),
    if_neg (by simp [show (typeOf b).kind = GoKind.slicek from hb]), if_pos hne]

/-- The same-content check returns whenever all elements of both arguments
are comparable (in particular whenever a validation fails before the
counting loop). -/
theorem sameContentCheck_isSome_of_cmp (a b : GoVal)
    (ha : ∀ v ∈ elems a, comparableVal v = true)
    (hb : ∀ v ∈ elems b, comparableVal v = true) :
    (sameContentCheck [a, b]).isSome = true := by
  cases a <;> try (simp [sameContentCheck, typeOf, GoType.kind]; done)
  cases b <;> try (simp [sameContentCheck, typeOf, GoType.kind]; done)
  rename_i t xs u ys
  by_cases ht : u = t
  · subst ht
    rw [sameContentCheck_slice_red]
    by_cases hlen : xs.length = ys.length
    · rw [if_neg (by simp [hlen]),
        fillCounts_eq ys xs [] [] hlen.symm (by simpa [elems] using hb)
          (by simpa [elems] using ha)]
      rfl
    · rw [if_pos (by simpa using hlen)]
      rfl
  · simp only [sameContentCheck, typeOf, GoType.kind]
    rw [if_neg (by simp), if_neg (by simp), if_pos (by simp [ht])]
    rfl

/-- The same-content check returns on any argument list that is not a
pair: the arity validation fires. -/
theorem sameContentCheck_arity (p : List GoVal) (h : p.length ≠ 2) :
    (sameContentCheck p).isSome = true := by
  cases p with
  | nil => rfl
  | cons a q =>
    cases q with
    | nil => rfl
    | cons b r =>
      cases r with
      | nil => exact absurd rfl h
      | cons c s => rfl

/-- C7 (amended): at the advertised arity, every checker's `Check`
returns normally, with the single exception of `SameContent`, which can
fail to return only through the unhashable-element panic: it returns
whenever all elements of both arguments have comparable dynamic types, and
whenever its arity validation fires.  Every explicit type validation of
every checker yields a false verdict with a non-empty diagnostic: the
unsupported container kind of `Contains`, the slice/map kind checks of
`SliceEquals`/`MapEquals`, both duration positions of `DurationLessThan`,
the time assertion of `TimeBetween`, both kind checks and the
type-equality check of `SameContent`, and the `sort.Interface` assertion
of `IsSorted`. -/
theorem checkers_no_panic_spec (a b : GoVal) (ch : TimeBetweenChecker) :
    (containsCheck [a, b]).isSome = true
    ∧ (isInCheck [a, b]).isSome = true
    ∧ (sliceEqualsCheck [a, b]).isSome = true
    ∧ (mapEqualsCheck [a, b]).isSome = true
    ∧ (durationLessThanCheck [a, b]).isSome = true
    ∧ (timeBetweenCheck ch [a]).isSome = true
    ∧ ((∀ v ∈ elems a, comparableVal v = true) → (∀ v ∈ elems b, comparableVal v = true) →
        (sameContentCheck [a, b]).isSome = true)
    ∧ (∀ p : List GoVal, p.length ≠ 2 → (sameContentCheck p).isSome = true)
    ∧ (kindOf a ≠ GoKind.slicek → kindOf a ≠ GoKind.arrayk → kindOf a ≠ GoKind.stringk →
        containsCheck [a, b] = some (false, "Unsupported argument types: "
          ++ kindString (kindOf a) ++ " " ++ typeString (typeOf b)))
    ∧ ((kindOf a ≠ GoKind.slicek ∨ kindOf b ≠ GoKind.slicek) →
        sliceEqualsCheck [a, b] = some (false, "Both arguments must be slices"))
    ∧ ((kindOf a ≠ GoKind.mapk ∨ kindOf b ≠ GoKind.mapk) →
        mapEqualsCheck [a, b] = some (false, "Both arguments must be maps"))
    ∧ ((∀ d : Int, a ≠ GoVal.vduration d) →
        durationLessThanCheck [a, b]
          = some (false, "obtained value type must be time.Duration"))
    ∧ ((∀ d : Int, b ≠ GoVal.vduration d) → ∀ d1 : Int,
        durationLessThanCheck [GoVal.vduration d1, b]
          = some (false, "expected value type must be time.Duration"))
    ∧ ((∀ i : Int, a ≠ GoVal.vtime i) →
        timeBetweenCheck ch [a] = some (false, "obtained value type must be time.Time"))
    ∧ (kindOf a ≠ GoKind.slicek →
        sameContentCheck [a, b] = some (false,
          "SameContent expects the obtained value to be a slice, got "
            ++ quoteStr (kindString (kindOf a))))
    ∧ (kindOf a = GoKind.slicek → kindOf b ≠ GoKind.slicek →
        sameContentCheck [a, b] = some (false,
          "SameContent expects the expected value to be a slice, got "
            ++ quoteStr (kindString (kindOf b))))
    ∧ (kindOf a = GoKind.slicek → kindOf b = GoKind.slicek → typeOf b ≠ typeOf a →
        sameContentCheck [a, b] = some (false,
          "SameContent expects two slices of the same type, expected: "
            ++ quoteStr (typeString (typeOf b)) ++ ", got: "
            ++ quoteStr (typeString (typeOf a))))
    ∧ isSortedCheckRaw none = (false, "value object must implement `sort.Interface`") :=
  ⟨containsCheck_isSome a b,
   (show isInCheck [a, b] = containsCheck [b, a] from rfl) ▸ containsCheck_isSome b a,
   sliceEqualsCheck_isSome a b,
   mapEqualsCheck_isSome a b,
   durationLessThanCheck_isSome a b,
   timeBetweenCheck_isSome ch a,
   sameContentCheck_isSome_of_cmp a b,
   sameContentCheck_arity,
   containsCheck_unsupported_diag a b,
   sliceEqualsCheck_kind_diag a b,
   mapEqualsCheck_kind_diag a b,
   durationLessThanCheck_obtained_diag a b,
   fun h d1 => durationLessThanCheck_expected_diag d1 b h,
   timeBetweenCheck_type_diag ch a,
   sameContentCheck_obtained_diag a b,
   sameContentCheck_expected_diag a b,
   sameContentCheck_type_diag a b,
   rfl⟩

/-- Counterexample to C7 as stated: `SameContent` on two (identical)
slices of type `[][]int` panics — the model returns no verdict at all —
so not every input returns normally. -/
theorem checkers_no_panic_cex :
    sameContentCheck
        [GoVal.vslice (GoType.tslice GoType.tint) [GoVal.vslice GoType.tint [GoVal.vint 1]],
         GoVal.vslice (GoType.tslice GoType.tint) [GoVal.vslice GoType.tint [GoVal.vint 1]]]
      = none := by decide

/-- Witness for C7 (amended): `SameContent` returns on int slices, and a
string in the obtained position of `DurationLessThan` draws the duration
diagnostic. -/
theorem checkers_no_panic_spec_witness :
    (sameContentCheck [GoVal.vslice GoType.tint [GoVal.vint 3],
        GoVal.vslice GoType.tint [GoVal.vint 3]]).isSome = true
    ∧ durationLessThanCheck [GoVal.vstring "x", GoVal.vduration 1]
        = some (false, "obtained value type must be time.Duration") :=
  ⟨(checkers_no_panic_spec (GoVal.vslice GoType.tint [GoVal.vint 3])
      (GoVal.vslice GoType.tint [GoVal.vint 3]) ⟨0, 0⟩).2.2.2.2.2.2.1
      (by decide) (by decide),
   (checkers_no_panic_spec (GoVal.vstring "x") (GoVal.vduration 1)
      ⟨0, 0⟩).2.2.2.2.2.2.2.2.2.2.2.1 (fun d => by simp)⟩

/-- C3: `IsIn.Check([value, container])` returns exactly the same
verdict-diagnostic pair as `Contains.Check([container, value])`: the
argument-order-swap delegation. -/
theorem isIn_swap_spec (value container : GoVal) :
    isInCheck [value, container] = containsCheck [container, value] := rfl

/-- C4: on a container exposing the ordered-container capability,
`IsSorted.Check` returns a true verdict exactly when no adjacent pair in
`[0, length-2]` has element `i+1` strictly less than element `i`; on the
first violating pair it returns false with a diagnostic naming index
`i+1`; containers of length at most 1 always yield a true verdict. -/
theorem isSorted_check_spec (c : SortContainer) :
    ((isSortedCheck c).1 = true ↔ ∀ i, i + 1 < c.len → c.less (i + 1) i = false)
    ∧ (∀ m, m + 1 < c.len → c.less (m + 1) m = true →
        (∀ j, j < m → c.less (j + 1) j = false) →
        isSortedCheck c = (false, "value is not ordered at index " ++ toString (m + 1)))
    ∧ (c.len ≤ 1 → isSortedCheck c = (true, "")) := by
  refine ⟨?_, ?_, ?_⟩
  · rw [isSortedCheck, checkPairs_fst_iff]
    constructor
    · intro h i hi
      have := h i (by omega)
      simpa using this
    · intro h j hj
      have := h j (by omega)
      simpa using this
  · intro m hm hv hprev
    rw [isSortedCheck]
    have := checkPairs_first_violation c.less (c.len - 1) 0 m (by omega)
      (by simpa using hv) (by intro j hj; simpa using hprev j hj)
    simpa using this
  · intro h
    have : c.len - 1 = 0 := by omega
    rw [isSortedCheck, this]
    rfl

/-- C5: a `TimeBetween` checker constructed with its first bound after its
second swaps them, so the earlier instant is the lower bound; its `Check`
accepts a time value exactly when it is neither before the lower bound nor
after the upper bound, so both bounds themselves pass. -/
theorem timeBetween_spec (t1 t2 : Int) (h : t2 < t1) :
    TimeBetween t1 t2 = ⟨t2, t1⟩
    ∧ (∀ w : Int, timeBetweenCheck (TimeBetween t1 t2) [GoVal.vtime w] = some (true, "") ↔
        (¬ w < t2 ∧ ¬ t1 < w))
    ∧ timeBetweenCheck (TimeBetween t1 t2) [GoVal.vtime t2] = some (true, "")
    ∧ timeBetweenCheck (TimeBetween t1 t2) [GoVal.vtime t1] = some (true, "") := by
  have hc : TimeBetween t1 t2 = ⟨t2, t1⟩ := by simp [TimeBetween, if_pos h]
  have hiff : ∀ w : Int, timeBetweenCheck (TimeBetween t1 t2) [GoVal.vtime w] = some (true, "") ↔
      (¬ w < t2 ∧ ¬ t1 < w) := by
    intro w
    rw [hc]
    simp only [timeBetweenCheck]
    split_ifs with h1 h2 <;> simp_all
  exact ⟨hc, hiff, (hiff t2).mpr (by omega), (hiff t1).mpr (by omega)⟩

/-- C6: `DurationLessThan.Check` on two duration values returns a true
verdict exactly when the obtained duration is strictly less than the
expected one at nanosecond resolution (equal durations fail); a
non-duration in either position yields a false verdict with a non-empty
diagnostic naming `time.Duration`. -/
theorem durationLessThan_check_spec (d1 d2 : Int) (a b : GoVal) :
    durationLessThanCheck [GoVal.vduration d1, GoVal.vduration d2] = some (decide (d1 < d2), "")
    ∧ (durationLessThanCheck [GoVal.vduration d1, GoVal.vduration d2] = some (true, "") ↔ d1 < d2)
    ∧ (d1 = d2 → durationLessThanCheck [GoVal.vduration d1, GoVal.vduration d2]
        = some (false, ""))
    ∧ ((∀ d : Int, a ≠ GoVal.vduration d) →
        durationLessThanCheck [a, b] = some (false, "obtained value type must be time.Duration"))
    ∧ ((∀ d : Int, b ≠ GoVal.vduration d) →
        durationLessThanCheck [GoVal.vduration d1, b]
          = some (false, "expected value type must be time.Duration")) := by
  refine ⟨rfl, ?_, ?_, ?_, ?_⟩
  · simp [durationLessThanCheck]
  · intro he; subst he; simp [durationLessThanCheck]
  · intro ha
    cases a with
    | vduration d => exact absurd rfl (ha d)
    | _ => rfl
  · intro hb
    cases b with
    | vduration d => exact absurd rfl (hb d)
    | _ => rfl

/-- C10: a slice whose declared element type is the empty interface never
satisfies `Contains.Check`, even when one of its elements is deeply equal
to the value, because the declared element type is compared against the
value's (always concrete) dynamic type. -/
theorem contains_iface_spec (xs : List GoVal) (v x : GoVal) :
    containsCheck [GoVal.vslice GoType.tiface xs, v] = some (false, "")
    ∧ (x ∈ xs → deepEqual x v = true →
        containsCheck [GoVal.vslice GoType.tiface xs, v] = some (false, "")) := by
  have h : containsCheck [GoVal.vslice GoType.tiface xs, v] = some (false, "") := by
    simp only [containsCheck]
    rw [if_pos (Ne.symm (typeOf_ne_tiface v))]
  exact ⟨h, fun _ _ => h⟩

/-- Witness for C4: the container `[1, 3, 2]` fails with the diagnostic
naming index 2, as the spec example requires. -/
theorem isSorted_check_spec_witness :
    isSortedCheck
        ⟨3, fun i j =>
          decide ((([1, 3, 2] : List Nat).getD i 0) < (([1, 3, 2] : List Nat).getD j 0))⟩
      = (false, "value is not ordered at index 2") := by
  have h := (isSorted_check_spec
      ⟨3, fun i j =>
        decide ((([1, 3, 2] : List Nat).getD i 0) < (([1, 3, 2] : List Nat).getD j 0))⟩).2.1
    1 (by decide) (by decide) (by decide)
  have hs : ("value is not ordered at index " ++ toString (1 + 1) : String)
      = "value is not ordered at index 2" := by decide
  rw [hs] at h
  exact h

/-- Witness for C5: `TimeBetween(10, 3)` keeps 3 as the lower bound and
accepts both boundary instants. -/
theorem timeBetween_spec_witness :
    TimeBetween 10 3 = ⟨3, 10⟩
    ∧ timeBetweenCheck (TimeBetween 10 3) [GoVal.vtime 3] = some (true, "")
    ∧ timeBetweenCheck (TimeBetween 10 3) [GoVal.vtime 10] = some (true, "") :=
  ⟨(timeBetween_spec 10 3 (by decide)).1,
   (timeBetween_spec 10 3 (by decide)).2.2.1,
   (timeBetween_spec 10 3 (by decide)).2.2.2⟩

/-- Witness for C6: 5ms is less than 10ms, and an int in the obtained
position draws the duration type diagnostic. -/
theorem durationLessThan_check_spec_witness :
    durationLessThanCheck [GoVal.vduration 5000000, GoVal.vduration 10000000] = some (true, "")
    ∧ durationLessThanCheck [GoVal.vint 7, GoVal.vduration 5000000]
        = some (false, "obtained value type must be time.Duration") :=
  ⟨((durationLessThan_check_spec 5000000 10000000 (GoVal.vint 7)
      (GoVal.vduration 5000000)).2.1).mpr (by decide),
   (durationLessThan_check_spec 5000000 10000000 (GoVal.vint 7)
      (GoVal.vduration 5000000)).2.2.2.1 (fun d => by simp)⟩

/-- Witness for C10: the interface-typed slice `[7]` does not contain the
int 7 even though its element deeply equals the value. -/
theorem contains_iface_spec_witness :
    containsCheck [GoVal.vslice GoType.tiface [GoVal.vint 7], GoVal.vint 7] = some (false, "")
    ∧ deepEqual (GoVal.vint 7) (GoVal.vint 7) = true :=
  ⟨(contains_iface_spec [GoVal.vint 7] (GoVal.vint 7) (GoVal.vint 7)).2
      (by simp) (by simp [deepEqual]),
   by simp [deepEqual]⟩

/-- C2: on a slice or array container whose declared element type equals
the dynamic type of the value, `Contains.Check` returns a true verdict
exactly when some element is deeply equal to the value (empty diagnostic
either way); when the element type differs it returns a false verdict with
no diagnostic. -/
theorem contains_check_spec (t : GoType) (xs : List GoVal) (v : GoVal) :
    (t = typeOf v →
      (containsCheck [GoVal.vslice t xs, v] = some (true, "") ↔ ∃ x ∈ xs, deepEqual x v = true)
      ∧ (containsCheck [GoVal.vslice t xs, v] = some (false, "") ↔
          ¬ ∃ x ∈ xs, deepEqual x v = true)
      ∧ (containsCheck [GoVal.varray t xs, v] = some (true, "") ↔
          ∃ x ∈ xs, deepEqual x v = true))
    ∧ (t ≠ typeOf v →
        containsCheck [GoVal.vslice t xs, v] = some (false, "")
        ∧ containsCheck [GoVal.varray t xs, v] = some (false, "")) := by
  constructor
  · intro ht
    have hs : containsCheck [GoVal.vslice t xs, v] = some (containsScan xs v, "") := by
      simp only [containsCheck]
      rw [if_neg (by simp [ht])]
    have ha : containsCheck [GoVal.varray t xs, v] = some (containsScan xs v, "") := by
      simp only [containsCheck]
      rw [if_neg (by simp [ht])]
    rw [hs, ha]
    rw [← containsScan_true_iff]
    refine ⟨by simp, ?_, by simp⟩
    cases h : containsScan xs v <;> simp [h]
  · intro ht
    constructor <;>
      · simp only [containsCheck]
        rw [if_pos ht]

/-- Counterexample to C8 as stated: with container `"abc"` and value the
int `5`, the diagnostic names the value's own type `int`, not the expected
character-string type. -/
theorem contains_string_diag_cex :
    containsCheck [GoVal.vstring "abc", GoVal.vint 5]
      = some (false, "value should have type: int")
    ∧ "value should have type: int" ≠ "value should have type: string" := by
  constructor
  · decide
  · decide

/-- C8 (amended): on a string container, a non-string value yields a false
verdict with the diagnostic `value should have type: T` where `T` is the
dynamic type of the value argument itself; a string value yields a true
verdict exactly when it occurs as a substring of the container. -/
theorem contains_string_spec (s : String) (v : GoVal) (sub : String) :
    ((typeOf v).kind ≠ GoKind.stringk →
      containsCheck [GoVal.vstring s, v]
        = some (false, "value should have type: " ++ typeString (typeOf v)))
    ∧ (containsCheck [GoVal.vstring s, GoVal.vstring sub] = some (true, "") ↔
        sub.data <:+: s.data) := by
  constructor
  · intro h
    simp only [containsCheck]
    rw [if_pos h]
  · simp only [containsCheck, typeOf, GoType.kind]
    rw [if_neg (by simp)]
    simp

/-- Witness for C2: the int slice `[1, 2]` contains the int 2. -/
theorem contains_check_spec_witness :
    containsCheck [GoVal.vslice GoType.tint [GoVal.vint 1, GoVal.vint 2], GoVal.vint 2]
      = some (true, "") :=
  (((contains_check_spec GoType.tint [GoVal.vint 1, GoVal.vint 2] (GoVal.vint 2)).1
      rfl).1).mpr ⟨GoVal.vint 2, by simp, by simp [deepEqual]⟩

/-- Witness for C8 (amended): the int 5 against container `"abc"` draws
the diagnostic naming `int`, and `"bc"` is found inside `"abc"`. -/
theorem contains_string_spec_witness :
    containsCheck [GoVal.vstring "abc", GoVal.vint 5]
      = some (false, "value should have type: " ++ typeString (typeOf (GoVal.vint 5)))
    ∧ containsCheck [GoVal.vstring "abc", GoVal.vstring "bc"] = some (true, "") :=
  ⟨(contains_string_spec "abc" (GoVal.vint 5) "bc").1 (by decide),
   ((contains_string_spec "abc" (GoVal.vint 5) "bc").2).mpr (by decide)⟩

/-- C9: `SliceEquals.Check` (resp. `MapEquals.Check`) rejects with a
non-empty diagnostic when either argument is not of slice (resp. map)
kind, fails silently when the kinds match but the lengths differ, and
otherwise returns `reflect.DeepEqual` of the two collections as the
verdict. -/
theorem sliceMapEquals_check_spec (a b : GoVal) :
    ((kindOf a ≠ GoKind.slicek ∨ kindOf b ≠ GoKind.slicek) →
        sliceEqualsCheck [a, b] = some (false, "Both arguments must be slices"))
    ∧ (kindOf a = GoKind.slicek → kindOf b = GoKind.slicek → goLen a ≠ goLen b →
        sliceEqualsCheck [a, b] = some (false, ""))
    ∧ (kindOf a = GoKind.slicek → kindOf b = GoKind.slicek → goLen a = goLen b →
        sliceEqualsCheck [a, b] = some (deepEqual a b, ""))
    ∧ ((kindOf a ≠ GoKind.mapk ∨ kindOf b ≠ GoKind.mapk) →
        mapEqualsCheck [a, b] = some (false, "Both arguments must be maps"))
    ∧ (kindOf a = GoKind.mapk → kindOf b = GoKind.mapk → goLen a ≠ goLen b →
        mapEqualsCheck [a, b] = some (false, ""))
    ∧ (kindOf a = GoKind.mapk → kindOf b = GoKind.mapk → goLen a = goLen b →
        mapEqualsCheck [a, b] = some (deepEqual a b, "")) := by
  refine ⟨?_, ?_, ?_, ?_, ?_, ?_⟩
  · intro h
    simp only [sliceEqualsCheck]
    rw [if_pos h]
  · intro h1 h2 hl
    simp only [sliceEqualsCheck]
    rw [if_neg (by simp [h1, h2]), if_pos hl]
  · intro h1 h2 hl
    simp only [sliceEqualsCheck]
    rw [if_neg (by simp [h1, h2]), if_neg (by simp [hl])]
  · intro h
    simp only [mapEqualsCheck]
    rw [if_pos h]
  · intro h1 h2 hl
    simp only [mapEqualsCheck]
    rw [if_neg (by simp [h1, h2]), if_pos hl]
  · intro h1 h2 hl
    simp only [mapEqualsCheck]
    rw [if_neg (by simp [h1, h2]), if_neg (by simp [hl])]

/-- Witness for C9: equal int slices compare deeply equal; an int in the
first position draws the slice-kind diagnostic. -/
theorem sliceMapEquals_check_spec_witness :
    sliceEqualsCheck [GoVal.vslice GoType.tint [GoVal.vint 1, GoVal.vint 2],
        GoVal.vslice GoType.tint [GoVal.vint 1, GoVal.vint 2]]
      = some (deepEqual (GoVal.vslice GoType.tint [GoVal.vint 1, GoVal.vint 2])
          (GoVal.vslice GoType.tint [GoVal.vint 1, GoVal.vint 2]), "")
    ∧ sliceEqualsCheck [GoVal.vint 1, GoVal.vslice GoType.tint []]
      = some (false, "Both arguments must be slices") :=
  ⟨((sliceMapEquals_check_spec (GoVal.vslice GoType.tint [GoVal.vint 1, GoVal.vint 2])
      (GoVal.vslice GoType.tint [GoVal.vint 1, GoVal.vint 2])).2.2.1) rfl rfl rfl,
   ((sliceMapEquals_check_spec (GoVal.vint 1) (GoVal.vslice GoType.tint [])).1)
     (Or.inl (by decide))⟩

end Checkers
